import Mathlib

/-!
Verification of the cabu music-trivia game against its design spec.

The definitions below are shallow embeddings of the TypeScript / JavaScript
sources:
  * answer validation and scoring from the game-play component
    (src/app/components — GamePlayComponent),
  * the host round-resolution pipeline (checkAllAnswersSubmitted,
    processAllAnswers, calculateScoreForPlayer),
  * the roster deduplication logic of WebRTCSimpleService.addPlayer,
  * the message-replay effects of the game-play and lobby components,
  * the signaling relay room registry (server/server.js),
  * the data-channel send operations.

Strings are modelled as lists of characters; JS string operations
(toLowerCase, trim, replace, includes) are given ASCII-faithful models.
JS numbers are modelled as rationals where fractional arithmetic occurs
(Math.round, multipliers) and as integers elsewhere.
-/

namespace Cabu

/-- Characters the JS regex class \s and String.prototype.trim treat as
whitespace (ASCII subset; the sources only handle ASCII answers). -/
def isWsChar (c : Char) : Bool :=
  c = ' ' || c = '\t' || c = '\n' || c = '\r' || c = '\x0b' || c = '\x0c'

/-- ASCII model of the character-level effect of String.prototype.toLowerCase. -/
def jsLowerChar (c : Char) : Char :=
  if 'A' ≤ c && c ≤ 'Z' then Char.ofNat (c.toNat + 32) else c

/-- ASCII model of String.prototype.toLowerCase on a whole string. -/
def jsToLower (s : List Char) : List Char :=
  s.map jsLowerChar

/-- Model of String.prototype.trim: strip leading and trailing whitespace. -/
def jsTrim (s : List Char) : List Char :=
  ((s.dropWhile isWsChar).reverse.dropWhile isWsChar).reverse

/-- Characters matched by the JS regex class \w (ASCII word characters). -/
def isWordChar (c : Char) : Bool :=
  ('a' ≤ c && c ≤ 'z') || ('A' ≤ c && c ≤ 'Z') || ('0' ≤ c && c ≤ '9') || c = '_'

/-- Model of .replace(/^the\s+/i, '') as applied in normalizeAnswer.  The
input has already been lowercased, so matching the literal lowercase
letters t, h, e followed by at least one whitespace character is exact. -/
def stripLeadingThe (s : List Char) : List Char :=
  match s with
  | 't' :: 'h' :: 'e' :: rest =>
    match rest with
    | c :: _ => if isWsChar c then rest.dropWhile isWsChar else s
    | [] => s
  | _ => s

/-- Boolean test that a list starts with the given needle
(model of the anchored part of String.prototype.includes). -/
def startsWithStr : List Char → List Char → Bool
  | _, [] => true
  | [], _ :: _ => false
  | a :: as, b :: bs => a = b && startsWithStr as bs

/-- Model of String.prototype.includes: contiguous-substring test. -/
def containsStr : List Char → List Char → Bool
  | hay, needle =>
    startsWithStr hay needle ||
      match hay with
      | [] => false
      | _ :: t => containsStr t needle

/-- Model of normalizeAnswer from validateAnswer's fuzzy branch: lowercase,
strip a single leading "the" plus following whitespace, delete every
character that is neither a word character nor whitespace, then trim. -/
def normalizeAnswer (s : List Char) : List Char :=
  jsTrim ((stripLeadingThe (jsToLower s)).filter (fun c => isWordChar c || isWsChar c))

/-- The three answer-checking modes of GameSettings.answerMode. -/
inductive AnswerMode where
  | exact
  | fuzzy
  | multipleChoice
  deriving DecidableEq, Repr

/-- The slice of GameSettings that the game logic reads. -/
structure GameSettings where
  answerMode : AnswerMode
  timeLimit : Int
  deriving DecidableEq, Repr

/-- Translation of GamePlayComponent.validateAnswer.  The component returns
false when the settings signal is unset, when the user answer is empty or
whitespace-only, and otherwise dispatches on the answer mode. -/
def validateAnswer (settings : Option GameSettings) (userAnswer correctAnswer : List Char) : Bool :=
  match settings with
  | none => false
  | some st =>
    if jsTrim userAnswer = [] then false
    else
      match st.answerMode with
      | AnswerMode.exact => jsToLower userAnswer = jsToLower correctAnswer
      | AnswerMode.fuzzy =>
        let normalized1 := normalizeAnswer userAnswer
        let normalized2 := normalizeAnswer correctAnswer
        if normalized1 = [] || normalized2 = [] then false
        else containsStr normalized1 normalized2 || containsStr normalized2 normalized1
      | AnswerMode.multipleChoice => userAnswer = correctAnswer

/-- Validation policy exactly as the spec sentence states it: empty or
whitespace-only is always wrong; exact mode compares case-insensitively;
multiple-choice compares byte-exactly; fuzzy mode normalizes both sides and
accepts iff both normal forms are non-empty and one is a substring of the
other. -/
def specValidate (mode : AnswerMode) (userAnswer correctAnswer : List Char) : Bool :=
  if jsTrim userAnswer = [] then false
  else
    match mode with
    | AnswerMode.exact => jsToLower userAnswer = jsToLower correctAnswer
    | AnswerMode.multipleChoice => userAnswer = correctAnswer
    | AnswerMode.fuzzy =>
      let n1 := normalizeAnswer userAnswer
      let n2 := normalizeAnswer correctAnswer
      (n1 ≠ [] && n2 ≠ []) && (containsStr n1 n2 || containsStr n2 n1)

/-- Fuzzy-mode settings used by the concrete spec examples. -/
def fuzzySettings : GameSettings := ⟨AnswerMode.fuzzy, 30⟩

/-!
Exact fraction arithmetic.  The scoring formulas mix integers with the
fractional constants 0.5, 1.5 and 3.0; every number the code manipulates is
an exact binary fraction, so JS double arithmetic on them is exact and an
exact fraction model is faithful.  Fractions are kept unreduced; every
denominator produced by the game formulas is positive.
-/

/-- Unreduced fraction num/den; all constructors used below keep den > 0. -/
structure Frac where
  num : Int
  den : Int
  deriving DecidableEq, Repr

/-- Embed an integer as a fraction. -/
def Frac.ofInt (n : Int) : Frac := ⟨n, 1⟩

instance : OfNat Frac n := ⟨Frac.ofInt n⟩

/-- Fraction addition. -/
def Frac.add (a b : Frac) : Frac := ⟨a.num * b.den + b.num * a.den, a.den * b.den⟩

/-- Fraction multiplication. -/
def Frac.mul (a b : Frac) : Frac := ⟨a.num * b.num, a.den * b.den⟩

/-- Value comparison of fractions (valid when both denominators are positive). -/
def Frac.fle (a b : Frac) : Bool := a.num * b.den ≤ b.num * a.den

/-- Value equality of fractions (valid when both denominators are positive). -/
def Frac.feq (a b : Frac) : Bool := a.num * b.den = b.num * a.den

/-- Model of Math.min on the exact values. -/
def Frac.fmin (a b : Frac) : Frac := if Frac.fle a b then a else b

/-- The constant 0.5 of the streak formula. -/
def Frac.half : Frac := ⟨1, 2⟩

/-- Model of Math.round: round half toward positive infinity,
Math.round x = floor (x + 1/2).  For a fraction n/d with d > 0 this is
the floor division of 2n + d by 2d. -/
def Frac.jround (a : Frac) : Int := Int.fdiv (2 * a.num + a.den) (2 * a.den)

/-!
Game data model: the slices of QuizQuestion, PlayerScore, RoundScore,
PlayerInfo and the GamePlayComponent state that the claims read.
-/

/-- The player roster entry (PlayerInfo in connection.model.ts). -/
inductive Role where
  | host
  | guest
  deriving DecidableEq, Repr

/-- Roster entry as held by WebRTCSimpleService.playersList. -/
structure PlayerInfo where
  id : List Char
  name : List Char
  role : Role
  connected : Bool
  deriving DecidableEq, Repr

/-- The slice of QuizQuestion the scoring and validation logic reads. -/
structure QuizQuestion where
  qid : List Char
  correctAnswer : List Char
  difficulty : Frac
  deriving DecidableEq, Repr

/-- One per-round score record (RoundScore in game.model.ts). -/
structure RoundScore where
  round : Nat
  answer : List Char
  correct : Bool
  basePoints : Int
  speedBonus : Int
  streakMultiplier : Frac
  difficultyMultiplier : Frac
  totalPoints : Int
  timeToAnswer : Int
  deriving DecidableEq, Repr

/-- Per-player cumulative score record (PlayerScore in game.model.ts). -/
structure PlayerScore where
  totalScore : Int
  correctAnswers : Nat
  currentStreak : Nat
  maxStreak : Nat
  roundScores : List RoundScore
  deriving DecidableEq, Repr

/-- Pending guest submission held in GamePlayComponent.pendingAnswers. -/
structure PendingAnswer where
  answer : List Char
  submittedAt : Int
  deriving DecidableEq, Repr

/-- Association-list lookup, modelling JS Map.get. -/
def findAssoc {κ α : Type} [DecidableEq κ] : List (κ × α) → κ → Option α
  | [], _ => none
  | kv :: rest, k => if kv.1 = k then some kv.2 else findAssoc rest k

/-- Association-list update, modelling JS Map.set: replace in place when the
key is present, append otherwise. -/
def setAssoc {κ α : Type} [DecidableEq κ] : List (κ × α) → κ → α → List (κ × α)
  | [], k, v => [(k, v)]
  | kv :: rest, k, v => if kv.1 = k then (k, v) :: rest else kv :: setAssoc rest k v

/-- Association-list removal, modelling JS Map.delete. -/
def removeAssoc {κ α : Type} [DecidableEq κ] : List (κ × α) → κ → List (κ × α)
  | [], _ => []
  | kv :: rest, k => if kv.1 = k then rest else kv :: removeAssoc rest k

/-- Messages the host broadcasts while resolving a round.  Only the two
broadcasts emitted by processAllAnswers are recorded; RoundResult entries are
the per-player objects pushed into its results array. -/
structure RoundResult where
  playerId : List Char
  playerName : List Char
  answer : List Char
  correct : Bool
  points : Int
  totalScore : Int
  currentStreak : Nat
  deriving DecidableEq, Repr

/-- Score-update snapshot entry broadcast by broadcastScores. -/
structure ScoreSnap where
  playerId : List Char
  totalScore : Int
  correctAnswers : Nat
  currentStreak : Nat
  deriving DecidableEq, Repr

/-- Outbound game message appended by the host round pipeline. -/
inductive HostMsg where
  | roundEnd (round : Nat) (correctAnswer : List Char) (results : List RoundResult)
  | scoreUpdate (scores : List ScoreSnap)
  deriving DecidableEq, Repr

/-- The GamePlayComponent state read and written by the host round
pipeline (signals and fields of the component, restricted to what
validateAnswer, calculateScoreForPlayer, checkAllAnswersSubmitted and
processAllAnswers touch). -/
structure HostState where
  settings : Option GameSettings
  currentQuestion : Option QuizQuestion
  currentRound : Nat
  answersProcessedForRound : Int
  players : List PlayerInfo
  hasSubmitted : Bool
  playerAnswer : List Char
  answerSubmittedAt : Option Int
  timeRemaining : Int
  roundStartTime : Int
  pendingAnswers : List (List Char × PendingAnswer)
  scores : List (List Char × PlayerScore)
  roundResults : List RoundResult
  isCorrect : Option Bool
  sent : List HostMsg
  deriving DecidableEq, Repr

/-- Literal spelling of the host player id. -/
def hostId : List Char := "host".toList

/-- Translation of GamePlayComponent.calculateScoreForPlayer.  Returns the
updated component state together with the function's return value (the
points awarded, 0 for a wrong answer or when a lookup fails). -/
def calculateScoreForPlayer (s : HostState) (playerId : List Char)
    (isCorrect : Bool) (submittedAt : Int) : HostState × Int :=
  match findAssoc s.scores playerId with
  | none => (s, 0)
  | some playerScore =>
    match s.currentQuestion with
    | none => (s, 0)
    | some question =>
      match s.settings with
      | none => (s, 0)
      | some st =>
      let timeToAnswer := submittedAt - s.roundStartTime
      if isCorrect then
        let basePoints : Int := 100
        let speedBonus : Int :=
          if st.timeLimit > 0 then
            Frac.jround (Frac.mul ⟨s.timeRemaining, st.timeLimit⟩ (Frac.ofInt 100))
          else 0
        let currentStreak := playerScore.currentStreak + 1
        let streakMultiplier :=
          Frac.fmin (Frac.add (Frac.ofInt 1)
            (Frac.mul (Frac.ofInt ((currentStreak : Int) - 1)) Frac.half)) (Frac.ofInt 3)
        let difficultyMultiplier := question.difficulty
        let subtotal := basePoints + speedBonus
        let withStreak := Frac.mul (Frac.ofInt subtotal) streakMultiplier
        let totalPoints := Frac.jround (Frac.mul withStreak difficultyMultiplier)
        let roundScore : RoundScore :=
          { round := s.currentRound + 1
            answer := s.playerAnswer
            correct := true
            basePoints := basePoints
            speedBonus := speedBonus
            streakMultiplier := streakMultiplier
            difficultyMultiplier := difficultyMultiplier
            totalPoints := totalPoints
            timeToAnswer := timeToAnswer }
        let playerScore' : PlayerScore :=
          { totalScore := playerScore.totalScore + totalPoints
            correctAnswers := playerScore.correctAnswers + 1
            currentStreak := currentStreak
            maxStreak := max playerScore.maxStreak currentStreak
            roundScores := playerScore.roundScores ++ [roundScore] }
        ({ s with scores := setAssoc s.scores playerId playerScore' }, totalPoints)
      else
        let roundScore : RoundScore :=
          { round := s.currentRound + 1
            answer := s.playerAnswer
            correct := false
            basePoints := 0
            speedBonus := 0
            streakMultiplier := Frac.ofInt 1
            difficultyMultiplier := Frac.ofInt 1
            totalPoints := 0
            timeToAnswer := timeToAnswer }
        let playerScore' : PlayerScore :=
          { playerScore with
            currentStreak := 0
            roundScores := playerScore.roundScores ++ [roundScore] }
        ({ s with scores := setAssoc s.scores playerId playerScore' }, 0)

/-- Speed bonus exactly as the spec formula states it. -/
def specSpeedBonus (timeRemaining timeLimit : Int) : Int :=
  if timeLimit > 0 then
    Frac.jround (Frac.mul ⟨timeRemaining, timeLimit⟩ (Frac.ofInt 100))
  else 0

/-- Streak multiplier exactly as the spec formula states it:
min (1 + (newStreak − 1) × 0.5) 3. -/
def specStreakMultiplier (newStreak : Nat) : Frac :=
  Frac.fmin (Frac.add (Frac.ofInt 1)
    (Frac.mul (Frac.ofInt ((newStreak : Int) - 1)) Frac.half)) (Frac.ofInt 3)

/-- Total points exactly as the spec formula states it:
round ((basePoints + speedBonus) × streakMultiplier × difficulty). -/
def specTotalPoints (basePoints speedBonus : Int) (mult difficulty : Frac) : Int :=
  Frac.jround (Frac.mul (Frac.mul (Frac.ofInt (basePoints + speedBonus)) mult) difficulty)

/-- The round record the spec formulas predict for a correct answer. -/
def specCorrectRecord (s : HostState) (ps : PlayerScore) (q : QuizQuestion)
    (st : GameSettings) (t : Int) : RoundScore :=
  { round := s.currentRound + 1
    answer := s.playerAnswer
    correct := true
    basePoints := 100
    speedBonus := specSpeedBonus s.timeRemaining st.timeLimit
    streakMultiplier := specStreakMultiplier (ps.currentStreak + 1)
    difficultyMultiplier := q.difficulty
    totalPoints := specTotalPoints 100 (specSpeedBonus s.timeRemaining st.timeLimit)
      (specStreakMultiplier (ps.currentStreak + 1)) q.difficulty
    timeToAnswer := t - s.roundStartTime }

/-- The updated player score the spec formulas predict for a correct
answer: total raised by the round's points, streak and max streak advanced,
correct-answer count incremented, record appended. -/
def specCorrectScore (s : HostState) (ps : PlayerScore) (q : QuizQuestion)
    (st : GameSettings) (t : Int) : PlayerScore :=
  { totalScore := ps.totalScore + specTotalPoints 100
      (specSpeedBonus s.timeRemaining st.timeLimit)
      (specStreakMultiplier (ps.currentStreak + 1)) q.difficulty
    correctAnswers := ps.correctAnswers + 1
    currentStreak := ps.currentStreak + 1
    maxStreak := max ps.maxStreak (ps.currentStreak + 1)
    roundScores := ps.roundScores ++ [specCorrectRecord s ps q st t] }

/-- The zero-point round record the spec predicts for a wrong answer. -/
def specIncorrectRecord (s : HostState) (t : Int) : RoundScore :=
  { round := s.currentRound + 1
    answer := s.playerAnswer
    correct := false
    basePoints := 0
    speedBonus := 0
    streakMultiplier := Frac.ofInt 1
    difficultyMultiplier := Frac.ofInt 1
    totalPoints := 0
    timeToAnswer := t - s.roundStartTime }

/-- The updated player score the spec predicts for a wrong answer: streak
reset, zero-point record appended, everything else unchanged. -/
def specIncorrectScore (s : HostState) (ps : PlayerScore) (t : Int) : PlayerScore :=
  { ps with
    currentStreak := 0
    roundScores := ps.roundScores ++ [specIncorrectRecord s t] }

/-!
Host round-resolution pipeline: handleAnswerSubmitted,
checkAllAnswersSubmitted and processAllAnswers of GamePlayComponent.
Date.now() is threaded in as the parameter now (processAllAnswers uses it
as the fallback submission time).  The five-second deferred start of the
next round (a setTimeout) is outside the synchronous resolution step and
is not part of this model.
-/

/-- Raw answer and submission time processAllAnswers derives for one
player: the host's own typed answer and submit time, a guest's pending
submission, or the empty answer when a guest never submitted. -/
def playerRawAnswer (s : HostState) (now : Int) (p : PlayerInfo) : List Char × Int :=
  if p.id = hostId then
    (s.playerAnswer, (s.answerSubmittedAt).getD now)
  else
    match findAssoc s.pendingAnswers p.id with
    | some pending => (pending.answer, pending.submittedAt)
    | none => ([], now)

/-- Placeholder recorded in round-end results for a missing answer. -/
def noAnswerText : List Char := "(no answer)".toList

/-- The answer string a player's round-end results entry displays:
the submitted answer, or "(no answer)" when it is empty. -/
def displayAnswer (s : HostState) (now : Int) (p : PlayerInfo) : List Char :=
  let raw := (playerRawAnswer s now p).1
  if raw = [] then noAnswerText else raw

/-- One iteration of the processAllAnswers forEach body: validate the
player's answer, score it, and build the results entry. -/
def scoreOnePlayer (s : HostState) (now : Int) (q : QuizQuestion) (p : PlayerInfo) :
    HostState × RoundResult :=
  let raw := playerRawAnswer s now p
  let isCorrect := validateAnswer s.settings raw.1 q.correctAnswer
  let step := calculateScoreForPlayer s p.id isCorrect raw.2
  let playerScore := findAssoc step.1.scores p.id
  (step.1,
    { playerId := p.id
      playerName := p.name
      answer := if raw.1 = [] then noAnswerText else raw.1
      correct := isCorrect
      points := step.2
      totalScore := (playerScore.map PlayerScore.totalScore).getD 0
      currentStreak := (playerScore.map PlayerScore.currentStreak).getD 0 })

/-- The forEach loop of processAllAnswers over the roster, threading the
component state and accumulating the results array in roster order. -/
def processPlayers (s : HostState) (now : Int) (q : QuizQuestion) :
    List PlayerInfo → HostState × List RoundResult
  | [] => (s, [])
  | p :: rest =>
    let head := scoreOnePlayer s now q p
    let tail := processPlayers head.1 now q rest
    (tail.1, head.2 :: tail.2)

/-- Score-update snapshot built by broadcastScores. -/
def scoreSnapshot (scores : List (List Char × PlayerScore)) : List ScoreSnap :=
  scores.map (fun kv =>
    { playerId := kv.1
      totalScore := kv.2.totalScore
      correctAnswers := kv.2.correctAnswers
      currentStreak := kv.2.currentStreak })

/-- Translation of GamePlayComponent.processAllAnswers: mark the round as
processed, score every roster player, clear pending answers, store the
results, set the host's own correctness flag, and append the round-end and
score-update broadcasts. -/
def processAllAnswers (s : HostState) (now : Int) : HostState :=
  match s.currentQuestion with
  | none => s
  | some question =>
    let s1 := { s with answersProcessedForRound := (s.currentRound : Int) }
    let run := processPlayers s1 now question s1.players
    let results := run.2
    let hostResult := results.find? (fun r => r.playerId = hostId)
    let s2 :=
      { run.1 with
        pendingAnswers := []
        roundResults := results
        isCorrect :=
          match hostResult with
          | some r => some r.correct
          | none => run.1.isCorrect }
    { s2 with
      sent := s2.sent ++
        [HostMsg.roundEnd s.currentRound question.correctAnswer results,
         HostMsg.scoreUpdate (scoreSnapshot s2.scores)] }

/-- Translation of GamePlayComponent.checkAllAnswersSubmitted: skip when the
current round was already processed; otherwise resolve the round when every
roster player has an entry (the hasSubmitted flag for the host, a pending
submission for a guest) and more than one player is in the roster. -/
def checkAllAnswersSubmitted (s : HostState) (now : Int) : HostState :=
  if s.answersProcessedForRound = (s.currentRound : Int) then s
  else
    let allSubmitted := s.players.all (fun p =>
      if p.id = hostId then s.hasSubmitted
      else (findAssoc s.pendingAnswers p.id).isSome)
    if allSubmitted && s.players.length > 1 then processAllAnswers s now else s

/-- Translation of GamePlayComponent.handleAnswerSubmitted (host side):
record the guest submission, overwriting any previous one, then test for
round resolution. -/
def handleAnswerSubmitted (s : HostState) (now : Int) (playerId : List Char)
    (answer : List Char) (submittedAt : Int) : HostState :=
  let s1 := { s with
    pendingAnswers := setAssoc s.pendingAnswers playerId ⟨answer, submittedAt⟩ }
  checkAllAnswersSubmitted s1 now

/-- Round-resolution predicate of the claims: the spec sentence says the
host resolves a round exactly when every currently-connected player has an
answer entry; disconnected roster entries are said not to block. -/
def specConnectedAllAnswered (s : HostState) : Bool :=
  s.players.all (fun p =>
    !p.connected ||
      (if p.id = hostId then s.hasSubmitted
       else (findAssoc s.pendingAnswers p.id).isSome))

/-- Roster-wide submission test as the code actually performs it: every
roster entry, connected or not, must have an answer entry. -/
def rosterAllAnswered (s : HostState) : Bool :=
  s.players.all (fun p =>
    if p.id = hostId then s.hasSubmitted
    else (findAssoc s.pendingAnswers p.id).isSome)

/-!
Roster deduplication: WebRTCSimpleService.addPlayer and
broadcastPlayerList.  Broadcasting the roster snapshot is modelled by
appending the snapshot to sentLists (the source sends it through
sendGameMessage to every open channel).
-/

/-- The slice of WebRTCSimpleService state that addPlayer touches. -/
structure RTCServiceState where
  isHost : Bool
  playersList : List PlayerInfo
  sentLists : List (List PlayerInfo)
  deriving DecidableEq, Repr

/-- Roster lookup by player id (players.find in the source). -/
def findById (l : List PlayerInfo) (i : List Char) : Option PlayerInfo :=
  l.find? (fun p => p.id = i)

/-- The duplicate test of addPlayer: the stored entry has the same name and
role as the incoming player and its stored connected flag is true. -/
def samePlayerData (existing player : PlayerInfo) : Bool :=
  existing.name = player.name && existing.connected = true
    && existing.role = player.role

/-- The roster produced when addPlayer replaces an existing entry: the
incoming player data with connected forced to true, in place. -/
def updatedRoster (st : RTCServiceState) (player : PlayerInfo) : List PlayerInfo :=
  st.playersList.map (fun p =>
    if p.id = player.id then { player with connected := true } else p)

/-- Translation of WebRTCSimpleService.addPlayer: dedupe by id; an existing
entry with the same name and role whose stored connected flag is true is
left untouched; otherwise the entry is replaced (or appended) with
connected set to true.  A player-list-update broadcast follows when a new
player was added or the resulting roster holds more than one player. -/
def addPlayer (st : RTCServiceState) (player : PlayerInfo) : RTCServiceState :=
  let updated : List PlayerInfo × Bool :=
    match findById st.playersList player.id with
    | some existing =>
      if samePlayerData existing player then (st.playersList, false)
      else (updatedRoster st player, false)
    | none => (st.playersList ++ [{ player with connected := true }], true)
  let st1 := { st with playersList := updated.1 }
  if updated.2 || st1.playersList.length > 1 then
    if st1.isHost then { st1 with sentLists := st1.sentLists ++ [st1.playersList] }
    else st1
  else st1

/-!
Signaling relay (server/server.js): room registry and the create-room,
join-room and leave handlers.  Connection handles are numbers; replies are
(recipient, message) pairs.  Every modelled socket is open (readyState 1);
the periodic stale-connection sweep reuses handleClientLeave and needs no
separate model.
-/

/-- Role tag the relay stores per client and attaches to relayed frames. -/
inductive SRole where
  | host
  | guest
  deriving DecidableEq, Repr

/-- Client registry entry of the relay. -/
structure ClientInfo where
  roomCode : List Char
  role : SRole
  deriving DecidableEq, Repr

/-- The relay's in-memory registries (rooms and clients maps). -/
structure RelayState where
  rooms : List (List Char × List Nat)
  clients : List (Nat × ClientInfo)
  deriving DecidableEq, Repr

/-- The relay with no rooms and no clients. -/
def emptyRelay : RelayState := ⟨[], []⟩

/-- Server-to-client frames of the room-management protocol. -/
inductive ServerMsg where
  | roomCreated (roomCode : List Char)
  | roomJoined (roomCode : List Char) (playerCount : Nat)
  | playerJoined (playerCount : Nat)
  | playerLeft (playerCount : Nat)
  | errorReply (message : List Char)
  deriving DecidableEq, Repr

/-- Set.add on a room member list kept duplicate-free. -/
def roomAdd (room : List Nat) (ws : Nat) : List Nat :=
  if ws ∈ room then room else room ++ [ws]

/-- Translation of the create-room handler: register the room with the
creator as sole member and reply room-created. -/
def relayCreateRoom (st : RelayState) (ws : Nat) (code : List Char) :
    RelayState × List (Nat × ServerMsg) :=
  (⟨setAssoc st.rooms code [ws], setAssoc st.clients ws ⟨code, SRole.host⟩⟩,
   [(ws, ServerMsg.roomCreated code)])

/-- Translation of the join-room handler: unknown code and full room fail
with an error reply to the caller only; otherwise the caller joins, gets
room-joined, and every other member gets player-joined. -/
def relayJoinRoom (st : RelayState) (ws : Nat) (code : List Char) :
    RelayState × List (Nat × ServerMsg) :=
  match findAssoc st.rooms code with
  | none => (st, [(ws, ServerMsg.errorReply "Room not found".toList)])
  | some room =>
    if room.length ≥ 4 then
      (st, [(ws, ServerMsg.errorReply "Room is full".toList)])
    else
      let room' := roomAdd room ws
      (⟨setAssoc st.rooms code room', setAssoc st.clients ws ⟨code, SRole.guest⟩⟩,
       (ws, ServerMsg.roomJoined code room'.length) ::
         (room'.filter (fun c => ¬ c = ws)).map
           (fun c => (c, ServerMsg.playerJoined room'.length)))

/-- Translation of handleClientLeave: drop the member, notify the remaining
members, delete the room once empty, and forget the client. -/
def relayLeave (st : RelayState) (ws : Nat) : RelayState × List (Nat × ServerMsg) :=
  match findAssoc st.clients ws with
  | none => (st, [])
  | some info =>
    match findAssoc st.rooms info.roomCode with
    | none => (⟨st.rooms, removeAssoc st.clients ws⟩, [])
    | some room =>
      let room' := room.filter (fun c => ¬ c = ws)
      let rooms' :=
        if room'.length = 0 then removeAssoc st.rooms info.roomCode
        else setAssoc st.rooms info.roomCode room'
      (⟨rooms', removeAssoc st.clients ws⟩,
       room'.map (fun c => (c, ServerMsg.playerLeft room'.length)))

/-- Room-management events the relay serializes (one inbound frame handled
to completion at a time). -/
inductive RelayEvent where
  | create (ws : Nat) (code : List Char)
  | join (ws : Nat) (code : List Char)
  | leave (ws : Nat)
  deriving DecidableEq, Repr

/-- One serialized relay step. -/
def relayStep (st : RelayState) (e : RelayEvent) : RelayState × List (Nat × ServerMsg) :=
  match e with
  | RelayEvent.create ws code => relayCreateRoom st ws code
  | RelayEvent.join ws code => relayJoinRoom st ws code
  | RelayEvent.leave ws => relayLeave st ws

/-- Relay state after a sequence of events starting from the empty relay. -/
def relayRun (events : List RelayEvent) : RelayState :=
  events.foldl (fun st e => (relayStep st e).1) emptyRelay

/-- Lowercase base-36 digit character, as produced by Number.toString(36). -/
def base36Digit (d : Nat) : Char :=
  if d < 10 then Char.ofNat (48 + d) else Char.ofNat (97 + (d - 10))

/-- ASCII model of the character-level effect of String.prototype.toUpperCase. -/
def jsUpperChar (c : Char) : Char :=
  if 'a' ≤ c && c ≤ 'z' then Char.ofNat (c.toNat - 32) else c

/-- Translation of generateRoomCode:
Math.random().toString(36).substring(2, 8).toUpperCase().  The random
double in [0, 1) is represented by the base-36 digit list of its
fractional expansion as toString(36) prints it: the empty list for 0
(printed "0"), otherwise the shortest nonempty digit list (no trailing
zero) after the leading "0.".  substring(2, 8) keeps at most the first six
fractional digits, then toUpperCase maps a–z to A–Z. -/
def generateRoomCode (fracDigits : List Nat) : List Char :=
  ((fracDigits.take 6).map base36Digit).map jsUpperChar

/-!
Data-channel send operations (WebRTCSimpleService.sendGameMessage and
sendToPlayer).  RTCDataChannel.send throws InvalidStateError on a channel
that is not open, modelled by dataChannelSend returning an error; the
service guards every send with a readyState check and reports closed
channels with console.error only.  Neither function writes any service
state, so the translations return only the delivery list.
-/

/-- RTCDataChannel.readyState values. -/
inductive ChanState where
  | connecting
  | opened
  | closing
  | closedCh
  deriving DecidableEq, Repr

/-- The slice of WebRTCSimpleService state the send operations read: the
host's peer map (peer id to its data channel, none until the channel
callback fired) and the guest's single channel. -/
structure SendService where
  isHost : Bool
  peers : List (List Char × Option ChanState)
  guestChannel : Option ChanState
  deriving DecidableEq, Repr

/-- The guard expression dataChannel?.readyState === 'open'. -/
def chanIsOpen : Option ChanState → Bool
  | some c => c = ChanState.opened
  | none => false

/-- Model of RTCDataChannel.send: errors unless the channel exists and is
open, otherwise delivers the message to the peer. -/
def dataChannelSend (ch : Option ChanState) (pid : List Char) (m : Nat) :
    Except (List Char) (List Char × Nat) :=
  match ch with
  | none => Except.error "TypeError".toList
  | some c =>
    if c = ChanState.opened then Except.ok (pid, m)
    else Except.error "InvalidStateError".toList

/-- The host-side forEach of sendGameMessage: send on every peer channel
that is open, skipping the rest. -/
def hostBroadcastLoop : List (List Char × Option ChanState) → Nat →
    Except (List Char) (List (List Char × Nat))
  | [], _ => Except.ok []
  | pc :: rest, m =>
    if chanIsOpen pc.2 then
      match dataChannelSend pc.2 pc.1 m with
      | Except.error e => Except.error e
      | Except.ok d =>
        match hostBroadcastLoop rest m with
        | Except.error e => Except.error e
        | Except.ok ds => Except.ok (d :: ds)
    else hostBroadcastLoop rest m

/-- Translation of WebRTCSimpleService.sendGameMessage: the host broadcasts
over every open peer channel; a guest sends to the host when its channel is
open and only logs an error otherwise. -/
def sendGameMessage (svc : SendService) (m : Nat) :
    Except (List Char) (List (List Char × Nat)) :=
  if svc.isHost then hostBroadcastLoop svc.peers m
  else if chanIsOpen svc.guestChannel then
    match dataChannelSend svc.guestChannel hostId m with
    | Except.error e => Except.error e
    | Except.ok d => Except.ok [d]
  else Except.ok []

/-- The channel sendToPlayer resolves for a target id
(peerConnections.get(playerId)?.dataChannel). -/
def peerChanOf (svc : SendService) (playerId : List Char) : Option ChanState :=
  match findAssoc svc.peers playerId with
  | some ch => ch
  | none => none

/-- Translation of WebRTCSimpleService.sendToPlayer: only the host sends,
and only when the target peer's channel is open; otherwise the failure is
logged and nothing is delivered. -/
def sendToPlayer (svc : SendService) (playerId : List Char) (m : Nat) :
    Except (List Char) (List (List Char × Nat)) :=
  if !svc.isHost then Except.ok []
  else
    let ch := peerChanOf svc playerId
    if chanIsOpen ch then
      match dataChannelSend ch playerId m with
      | Except.error e => Except.error e
      | Except.ok d => Except.ok [d]
    else Except.ok []

/-!
Message-replay effects.  The connection service retains the full message
history and re-delivers it to the component effects on every evaluation;
each consumer keeps lastProcessedMessageIndex and only acts on strictly
newer messages.  The game-play component's handler is kept abstract (a
function argument); the lobby component's handler is modelled concretely
because its round-start branch breaks out of the loop.
-/

/-- Game-message types of the data-channel protocol envelope. -/
inductive GMsgType where
  | gameStart
  | gameEnd
  | roundStart
  | roundEnd
  | answerSubmitted
  | scoreUpdate
  | playerJoined
  | playerLeft
  | playerListUpdate
  deriving DecidableEq, Repr

/-- Envelope of a retained game message; the payload is an opaque token. -/
structure GMsg where
  mtype : GMsgType
  payload : Nat
  deriving DecidableEq, Repr

/-- Inner scan of the game-play effect's first-run initialization: does a
game-end message occur strictly after position i. -/
def hasGameEndAfter (msgs : List GMsg) (i : Nat) : Bool :=
  (msgs.drop (i + 1)).any (fun m => m.mtype = GMsgType.gameEnd)

/-- Backward scan of the first-run initialization: walking from the end of
the log, the first game-start with no later game-end. -/
def scanGo (msgs : List GMsg) : Nat → Option Nat
  | 0 => none
  | i + 1 =>
    match msgs.get? i with
    | some m =>
      if m.mtype = GMsgType.gameStart then
        if hasGameEndAfter msgs i then scanGo msgs i else some i
      else scanGo msgs i
    | none => scanGo msgs i

/-- The most recent game-start not followed by a game-end, if any. -/
def scanForGameStart (msgs : List GMsg) : Option Nat :=
  scanGo msgs msgs.length

/-- The processing loop shared by the message effects: handle each message
of the given suffix in order, advancing lastProcessedMessageIndex. -/
def effLoop {σ : Type} (h : σ → GMsg → σ) : List GMsg → Int → σ → Int × σ
  | [], li, st => (li, st)
  | m :: rest, li, st => effLoop h rest (li + 1) (h st m)

/-- Translation of the GamePlayComponent constructor effect over one
evaluation: on the first run over a non-empty log the index is fast-
forwarded to just before the most recent game-start that has no later
game-end (the Play Again path), then every strictly newer message is
handled once.  The handler h stands for handleGameMessage. -/
def runGamePlayEffect {σ : Type} (h : σ → GMsg → σ) (msgs : List GMsg)
    (p : Int × σ) : Int × σ :=
  let li0 := p.1
  let li1 :=
    if li0 = -1 ∧ msgs ≠ [] then
      match scanForGameStart msgs with
      | some i => (i : Int) - 1
      | none => li0
    else li0
  effLoop h (msgs.drop (li1 + 1).toNat) li1 p.2

/-- The slice of GameLobbyComponent state its guest message effect touches.
settingsTok and questionsTok stand for the session-stored game data; the
navigatingToGame sessionStorage flag is navFlag (its asynchronous removal
after navigation completes is a later event, outside one evaluation);
navCount counts router.navigate calls; roomCodeSet models
webrtcService.roomCode() !== null. -/
structure LobbyState where
  lastIdx : Int
  settingsTok : Option Nat
  questionsTok : Option Nat
  navFlag : Bool
  navCount : Nat
  roomCodeSet : Bool
  deriving DecidableEq, Repr

/-- The for loop of the lobby effect, returning the final state and the
indices of the messages it processed: each iteration first advances
lastIdx, applies the game-start handler, and on round-start either breaks
immediately (navigation already pending) or navigates and breaks. -/
def lobbyLoop : List GMsg → LobbyState → LobbyState × List Int
  | [], st => (st, [])
  | m :: rest, st =>
    let st1 := { st with lastIdx := st.lastIdx + 1 }
    let st2 :=
      if m.mtype = GMsgType.gameStart then
        { st1 with settingsTok := some m.payload, questionsTok := some m.payload }
      else st1
    if m.mtype = GMsgType.roundStart then
      if st2.navFlag then (st2, [st2.lastIdx])
      else ({ st2 with navFlag := true, navCount := st2.navCount + 1 }, [st2.lastIdx])
    else
      let tail := lobbyLoop rest st2
      (tail.1, st2.lastIdx :: tail.2)

/-- Translation of the GameLobbyComponent guest effect over one evaluation:
on the first run over a non-empty log, when a room connection already
exists (Play Again) every existing message is skipped; then the loop
processes strictly newer messages until done or until a round-start breaks
out. -/
def runLobbyEffect (msgs : List GMsg) (st : LobbyState) : LobbyState × List Int :=
  let st1 :=
    if st.lastIdx = -1 ∧ msgs ≠ [] then
      if st.roomCodeSet then { st with lastIdx := (msgs.length : Int) - 1 } else st
    else st
  lobbyLoop (msgs.drop (st1.lastIdx + 1).toNat) st1

/-!
Concrete states used by the witnesses and counterexamples.
-/

/-- Roster entry for the host. -/
def hostPlayer : PlayerInfo := ⟨hostId, "Bob".toList, Role.host, true⟩

/-- A connected guest roster entry. -/
def guestAlice : PlayerInfo := ⟨"g1".toList, "Alice".toList, Role.guest, true⟩

/-- The same guest after its peer session dropped (connected := false). -/
def guestAliceOff : PlayerInfo := ⟨"g1".toList, "Alice".toList, Role.guest, false⟩

/-- Difficulty-1.5 question of the spec's scoring example. -/
def c2Question : QuizQuestion := ⟨"q1".toList, "Beatles".toList, ⟨3, 2⟩⟩

/-- Player score with a running streak of 2 (the spec example's prior streak). -/
def c2Score : PlayerScore := ⟨300, 2, 2, 2, []⟩

/-- Fresh all-zero player score. -/
def emptyScore : PlayerScore := ⟨0, 0, 0, 0, []⟩

/-- Host component state matching the spec's scoring example: fuzzy mode,
time limit 30, 15 seconds remaining, round 0 unprocessed. -/
def c2State : HostState :=
  { settings := some fuzzySettings
    currentQuestion := some c2Question
    currentRound := 0
    answersProcessedForRound := -1
    players := []
    hasSubmitted := true
    playerAnswer := "Beatles".toList
    answerSubmittedAt := some 10
    timeRemaining := 15
    roundStartTime := 0
    pendingAnswers := []
    scores := [("p1".toList, c2Score)]
    roundResults := []
    isCorrect := none
    sent := [] }

/-- Host state whose current round is already marked processed. -/
def c3State : HostState :=
  { c2State with
    answersProcessedForRound := 0
    players := [hostPlayer, guestAlice]
    scores := [(hostId, emptyScore), ("g1".toList, emptyScore)] }

/-- Host state with one connected host (already submitted) and one
disconnected guest that never submitted. -/
def c4State : HostState :=
  { c2State with
    players := [hostPlayer, guestAliceOff]
    scores := [(hostId, emptyScore), ("g1".toList, emptyScore)] }

/-- The same state after the guest's submission did arrive. -/
def c4bState : HostState :=
  { c4State with pendingAnswers := [("g1".toList, ⟨"x".toList, 5⟩)] }

/-- Host-side connection service with a two-entry roster and no broadcasts
sent yet. -/
def c5State : RTCServiceState := ⟨true, [hostPlayer, guestAlice], []⟩

/-- Relay holding one room that is already at the four-member cap. -/
def c7FullRoom : RelayState := ⟨[("ROOMAB".toList, [1, 2, 3, 4])], []⟩

/-- Freshly constructed lobby consumer: nothing processed, no room yet. -/
def lobbyFresh : LobbyState := ⟨-1, none, none, false, 0, false⟩

/-- Message log whose round-start precedes a game-start. -/
def c6Log : List GMsg := [⟨GMsgType.roundStart, 0⟩, ⟨GMsgType.gameStart, 7⟩]

/-- Message log with messages on both sides of a round-start. -/
def c6bLog : List GMsg :=
  [⟨GMsgType.gameStart, 1⟩, ⟨GMsgType.roundStart, 0⟩, ⟨GMsgType.gameStart, 2⟩]

/-- Two-player host state ready for round resolution: the host typed
"Beatles", the guest submitted "Rolling Stones". -/
def c10State : HostState :=
  { c2State with
    players := [hostPlayer, guestAlice]
    scores := [(hostId, c2Score), ("g1".toList, emptyScore)]
    pendingAnswers := [("g1".toList, ⟨"Rolling Stones".toList, 7⟩)] }

/-!
Helper lemmas about the association-list model of JS Map.
-/

theorem findAssoc_setAssoc_self {κ α : Type} [DecidableEq κ]
    (l : List (κ × α)) (k : κ) (v : α) : findAssoc (setAssoc l k v) k = some v := by
  induction l with
  | nil => simp [setAssoc, findAssoc]
  | cons kv rest ih =>
    by_cases h : kv.1 = k
    · simp [setAssoc, findAssoc, h]
    · simp [setAssoc, findAssoc, h, ih]

theorem findAssoc_setAssoc_ne {κ α : Type} [DecidableEq κ]
    (l : List (κ × α)) (k k' : κ) (v : α) (h : k' ≠ k) :
    findAssoc (setAssoc l k v) k' = findAssoc l k' := by
  induction l with
  | nil => simp [setAssoc, findAssoc, Ne.symm h]
  | cons kv rest ih =>
    by_cases hk : kv.1 = k
    · subst hk
      have hne : ¬ kv.1 = k' := fun hh => h hh.symm
      simp [setAssoc, findAssoc, hne]
    · by_cases hk' : kv.1 = k' <;> simp [setAssoc, findAssoc, hk, hk', ih, h]

theorem mem_setAssoc {κ α : Type} [DecidableEq κ]
    (l : List (κ × α)) (k : κ) (v : α) :
    ∀ e ∈ setAssoc l k v, e ∈ l ∨ e = (k, v) := by
  induction l with
  | nil => simp [setAssoc]
  | cons kv rest ih =>
    intro e he
    by_cases hk : kv.1 = k
    · simp [setAssoc, hk] at he
      rcases he with he | he
      · right; simp [he]
      · left; simp [he]
    · simp [setAssoc, hk] at he
      rcases he with he | he
      · left; simp [he]
      · rcases ih e he with h1 | h1
        · left; simp [h1]
        · right; exact h1

theorem mem_removeAssoc {κ α : Type} [DecidableEq κ]
    (l : List (κ × α)) (k : κ) :
    ∀ e ∈ removeAssoc l k, e ∈ l := by
  induction l with
  | nil => simp [removeAssoc]
  | cons kv rest ih =>
    intro e he
    by_cases hk : kv.1 = k
    · simp [removeAssoc, hk] at he
      simp [he]
    · simp [removeAssoc, hk] at he
      rcases he with he | he
      · simp [he]
      · simp [ih e he]

/-- C1: validateAnswer follows the spec's validation policy for every
answer mode and every pair of strings — empty or whitespace-only user
answers are always wrong; exact mode is case-insensitive equality;
multiple-choice mode is byte-exact equality; fuzzy mode normalizes both
sides (lowercase, strip one leading "the ", drop non-word non-space
characters, trim) and accepts iff both normal forms are non-empty and one
is a substring of the other — and the three concrete fuzzy examples of the
spec evaluate as stated. -/
theorem validateAnswer_matches_policy :
    (∀ (st : GameSettings) (u c : List Char),
        validateAnswer (some st) u c = specValidate st.answerMode u c) ∧
    validateAnswer (some fuzzySettings) "The Beatles".toList "Beatles".toList = true ∧
    validateAnswer (some fuzzySettings) "beatles!!".toList "Beatles".toList = true ∧
    validateAnswer (some fuzzySettings) "Led Zeppelin".toList "Beatles".toList = false := by
  refine ⟨?_, by decide, by decide, by decide⟩
  intro st u c
  cases h : st.answerMode <;> simp [validateAnswer, specValidate, h]

/-!
Closed forms of calculateScoreForPlayer, used by the scoring and
round-resolution claims.
-/

theorem calc_correct_eq (s : HostState) (pid : List Char) (t : Int)
    (ps : PlayerScore) (q : QuizQuestion) (st : GameSettings)
    (hps : findAssoc s.scores pid = some ps)
    (hq : s.currentQuestion = some q)
    (hst : s.settings = some st) :
    calculateScoreForPlayer s pid true t =
      ({ s with scores := setAssoc s.scores pid (specCorrectScore s ps q st t) },
       specTotalPoints 100 (specSpeedBonus s.timeRemaining st.timeLimit)
         (specStreakMultiplier (ps.currentStreak + 1)) q.difficulty) := by
  simp [calculateScoreForPlayer, hps, hq, hst, specCorrectScore,
    specCorrectRecord, specSpeedBonus, specStreakMultiplier, specTotalPoints]

theorem calc_incorrect_eq (s : HostState) (pid : List Char) (t : Int)
    (ps : PlayerScore) (q : QuizQuestion) (st : GameSettings)
    (hps : findAssoc s.scores pid = some ps)
    (hq : s.currentQuestion = some q)
    (hst : s.settings = some st) :
    calculateScoreForPlayer s pid false t =
      ({ s with scores := setAssoc s.scores pid (specIncorrectScore s ps t) }, 0) := by
  simp [calculateScoreForPlayer, hps, hq, hst, specIncorrectScore,
    specIncorrectRecord]

/-- C2: scoring follows the spec formulas — a correct answer earns
basePoints 100 plus a speed bonus of round((timeRemaining/timeLimit)x100)
(0 without a time limit), multiplied by the streak multiplier
min(1+(newStreak-1)x0.5, 3) for newStreak = priorStreak+1 and by the
question difficulty, rounding the product; streak, max streak, total score
and correct-answer count are updated and the round record appended
(specCorrectScore / specCorrectRecord spell the formulas out).  An
incorrect answer resets the streak to 0, appends a zero-point record with
multipliers 1, and leaves the total score and correct-answer count
unchanged (specIncorrectScore / specIncorrectRecord). -/
theorem calculateScoreForPlayer_spec (s : HostState) (pid : List Char) (t : Int)
    (ps : PlayerScore) (q : QuizQuestion) (st : GameSettings)
    (hps : findAssoc s.scores pid = some ps)
    (hq : s.currentQuestion = some q)
    (hst : s.settings = some st) :
    (calculateScoreForPlayer s pid true t).2 =
      specTotalPoints 100 (specSpeedBonus s.timeRemaining st.timeLimit)
        (specStreakMultiplier (ps.currentStreak + 1)) q.difficulty ∧
    findAssoc (calculateScoreForPlayer s pid true t).1.scores pid =
      some (specCorrectScore s ps q st t) ∧
    (calculateScoreForPlayer s pid false t).2 = 0 ∧
    findAssoc (calculateScoreForPlayer s pid false t).1.scores pid =
      some (specIncorrectScore s ps t) := by
  have h1 := calc_correct_eq s pid t ps q st hps hq hst
  have h2 := calc_incorrect_eq s pid t ps q st hps hq hst
  refine ⟨?_, ?_, ?_, ?_⟩ <;> simp [h1, h2, findAssoc_setAssoc_self]

/-- Witness for C2 at the spec's concrete example: prior streak 2, time
limit 30, 15 seconds remaining, difficulty 1.5 give speed bonus 50, streak
multiplier 2 and 450 points. -/
theorem calculateScoreForPlayer_spec_witness :
    (findAssoc c2State.scores "p1".toList = some c2Score ∧
     c2State.currentQuestion = some c2Question ∧
     c2State.settings = some fuzzySettings) ∧
    specSpeedBonus c2State.timeRemaining fuzzySettings.timeLimit = 50 ∧
    Frac.feq (specStreakMultiplier (c2Score.currentStreak + 1)) ⟨2, 1⟩ = true ∧
    (calculateScoreForPlayer c2State "p1".toList true 10).2 = 450 := by
  have h := calculateScoreForPlayer_spec c2State "p1".toList 10 c2Score c2Question
    fuzzySettings (by decide) rfl rfl
  exact ⟨⟨by decide, rfl, rfl⟩, by decide, by decide, h.1.trans (by decide)⟩

/-!
Shape lemmas: calculateScoreForPlayer and the processAllAnswers loop only
ever modify the scores map of the component state.
-/

theorem optCases {α : Type} (o : Option α) : o = none ∨ ∃ a, o = some a := by
  cases o
  · exact Or.inl rfl
  · exact Or.inr ⟨_, rfl⟩

theorem calc_eq_none1 (s : HostState) (pid : List Char) (c : Bool) (t : Int)
    (h : findAssoc s.scores pid = none) :
    calculateScoreForPlayer s pid c t = (s, 0) := by
  unfold calculateScoreForPlayer
  rw [h]

theorem calc_eq_none2 (s : HostState) (pid : List Char) (c : Bool) (t : Int)
    (h : s.currentQuestion = none) :
    calculateScoreForPlayer s pid c t = (s, 0) := by
  unfold calculateScoreForPlayer
  cases hf : findAssoc s.scores pid
  · rfl
  · rw [h]

theorem calc_eq_none3 (s : HostState) (pid : List Char) (c : Bool) (t : Int)
    (h : s.settings = none) :
    calculateScoreForPlayer s pid c t = (s, 0) := by
  unfold calculateScoreForPlayer
  cases hf : findAssoc s.scores pid
  · rfl
  · cases hq : s.currentQuestion
    · rfl
    · rw [h]

theorem calc_shape (s : HostState) (pid : List Char) (c : Bool) (t : Int) :
    ∃ sc, (calculateScoreForPlayer s pid c t).1 = { s with scores := sc } := by
  rcases optCases (findAssoc s.scores pid) with hf | ⟨ps, hf⟩
  · exact ⟨s.scores, by rw [calc_eq_none1 s pid c t hf]⟩
  · rcases optCases s.currentQuestion with hq | ⟨q, hq⟩
    · exact ⟨s.scores, by rw [calc_eq_none2 s pid c t hq]⟩
    · rcases optCases s.settings with hst | ⟨st, hst⟩
      · exact ⟨s.scores, by rw [calc_eq_none3 s pid c t hst]⟩
      · cases c
        · exact ⟨setAssoc s.scores pid (specIncorrectScore s ps t),
            by rw [calc_incorrect_eq s pid t ps q st hf hq hst]⟩
        · exact ⟨setAssoc s.scores pid (specCorrectScore s ps q st t),
            by rw [calc_correct_eq s pid t ps q st hf hq hst]⟩

theorem calc_scores_other (s : HostState) (pid : List Char) (c : Bool) (t : Int)
    (pid' : List Char) (h : pid' ≠ pid) :
    findAssoc (calculateScoreForPlayer s pid c t).1.scores pid' =
      findAssoc s.scores pid' := by
  rcases optCases (findAssoc s.scores pid) with hf | ⟨ps, hf⟩
  · rw [calc_eq_none1 s pid c t hf]
  · rcases optCases s.currentQuestion with hq | ⟨q, hq⟩
    · rw [calc_eq_none2 s pid c t hq]
    · rcases optCases s.settings with hst | ⟨st, hst⟩
      · rw [calc_eq_none3 s pid c t hst]
      · cases c
        · rw [calc_incorrect_eq s pid t ps q st hf hq hst]
          exact findAssoc_setAssoc_ne _ _ _ _ h
        · rw [calc_correct_eq s pid t ps q st hf hq hst]
          exact findAssoc_setAssoc_ne _ _ _ _ h

theorem scoreOne_shape (s : HostState) (now : Int) (q : QuizQuestion) (p : PlayerInfo) :
    ∃ sc, (scoreOnePlayer s now q p).1 = { s with scores := sc } :=
  calc_shape s p.id (validateAnswer s.settings (playerRawAnswer s now p).1 q.correctAnswer)
    (playerRawAnswer s now p).2

theorem processPlayers_shape (l : List PlayerInfo) (s : HostState) (now : Int)
    (q : QuizQuestion) :
    ∃ sc, (processPlayers s now q l).1 = { s with scores := sc } := by
  induction l generalizing s with
  | nil => exact ⟨s.scores, rfl⟩
  | cons p rest ih =>
    obtain ⟨sc1, h1⟩ := scoreOne_shape s now q p
    obtain ⟨sc2, h2⟩ := ih (scoreOnePlayer s now q p).1
    refine ⟨sc2, ?_⟩
    show (processPlayers (scoreOnePlayer s now q p).1 now q rest).1 = _
    rw [h2, h1]

theorem processAllAnswers_resolves (s : HostState) (now : Int) (q : QuizQuestion)
    (hq : s.currentQuestion = some q) :
    (processAllAnswers s now).answersProcessedForRound = (s.currentRound : Int) := by
  have key : ∀ s1 : HostState, s1.answersProcessedForRound = (s.currentRound : Int) →
      (processPlayers s1 now q s1.players).1.answersProcessedForRound =
        (s.currentRound : Int) := by
    intro s1 h1
    obtain ⟨sc, hsc⟩ := processPlayers_shape s1.players s1 now q
    rw [hsc]
    exact h1
  unfold processAllAnswers
  rw [hq]
  exact key
    { s with
      currentQuestion := some q
      answersProcessedForRound := (s.currentRound : Int) } rfl

/-- C3: once the resolved-round flag answersProcessedForRound equals the
current round, a further answer-submitted message (including a duplicate
submission for the same player) leaves the score map, the stored round
results and the outbound broadcast log unchanged — the round is resolved at
most once. -/
theorem round_resolution_idempotent (s : HostState) (now : Int)
    (pid answer : List Char) (t : Int)
    (h : s.answersProcessedForRound = (s.currentRound : Int)) :
    (handleAnswerSubmitted s now pid answer t).scores = s.scores ∧
    (handleAnswerSubmitted s now pid answer t).roundResults = s.roundResults ∧
    (handleAnswerSubmitted s now pid answer t).sent = s.sent ∧
    (handleAnswerSubmitted s now pid answer t).answersProcessedForRound =
      s.answersProcessedForRound := by
  unfold handleAnswerSubmitted checkAllAnswersSubmitted
  simp [h]

/-- Witness for C3: a duplicate guest submission arriving after round 0 of
the two-player state was resolved changes neither scores nor broadcasts. -/
theorem round_resolution_idempotent_witness :
    c3State.answersProcessedForRound = (c3State.currentRound : Int) ∧
    (handleAnswerSubmitted c3State 50 "g1".toList "Beatles".toList 12).scores =
      c3State.scores ∧
    (handleAnswerSubmitted c3State 50 "g1".toList "Beatles".toList 12).sent =
      c3State.sent := by
  have h := round_resolution_idempotent c3State 50 "g1".toList "Beatles".toList 12
    (by decide)
  exact ⟨by decide, h.1, h.2.2.1⟩

/-- C4 counterexample: in c4State every currently-connected player (just
the host) has answered and the roster has two entries, yet
checkAllAnswersSubmitted does not resolve the round — the code requires an
entry from every roster player, including the disconnected guest, so the
claim that disconnected players do not block resolution is false. -/
theorem check_blocks_on_disconnected :
    specConnectedAllAnswered c4State = true ∧
    c4State.players.length > 1 ∧
    ¬ c4State.answersProcessedForRound = (c4State.currentRound : Int) ∧
    checkAllAnswersSubmitted c4State 100 = c4State := by
  refine ⟨by decide, by decide, by decide, by decide⟩

/-- C4 as amended: for an unresolved round with a question loaded, the host
resolves the round exactly when every roster player — connected or not —
has an answer entry (hasSubmitted for the host, a pending submission for a
guest) and the roster holds more than one player; a disconnected roster
entry that never submitted therefore blocks resolution. -/
theorem check_resolves_iff_roster (s : HostState) (now : Int) (q : QuizQuestion)
    (hq : s.currentQuestion = some q)
    (hflag : ¬ s.answersProcessedForRound = (s.currentRound : Int)) :
    ((checkAllAnswersSubmitted s now).answersProcessedForRound = (s.currentRound : Int)
      ↔ (rosterAllAnswered s = true ∧ s.players.length > 1)) := by
  unfold checkAllAnswersSubmitted
  rw [if_neg hflag]
  show (if (rosterAllAnswered s && decide (s.players.length > 1)) = true
      then processAllAnswers s now else s).answersProcessedForRound =
        (s.currentRound : Int) ↔ (rosterAllAnswered s = true ∧ s.players.length > 1)
  by_cases hcond : (rosterAllAnswered s && decide (s.players.length > 1)) = true
  · rw [if_pos hcond]
    have hres := processAllAnswers_resolves s now q hq
    simp only [Bool.and_eq_true, decide_eq_true_eq] at hcond
    simp [hres, hcond.1, hcond.2]
  · rw [if_neg hcond]
    simp only [Bool.and_eq_true, decide_eq_true_eq] at hcond
    constructor
    · intro hres
      exact absurd hres hflag
    · intro hall
      exact absurd ⟨hall.1, hall.2⟩ hcond

/-- Witness for the amended C4: once the disconnected guest's submission is
present, the two-player round does resolve. -/
theorem check_resolves_iff_roster_witness :
    (c4bState.currentQuestion = some c2Question ∧
     ¬ c4bState.answersProcessedForRound = (c4bState.currentRound : Int) ∧
     rosterAllAnswered c4bState = true ∧ c4bState.players.length > 1) ∧
    (checkAllAnswersSubmitted c4bState 100).answersProcessedForRound =
      (c4bState.currentRound : Int) := by
  refine ⟨⟨rfl, by decide, by decide, by decide⟩, ?_⟩
  exact (check_resolves_iff_roster c4bState 100 c2Question rfl (by decide)).2
    ⟨by decide, by decide⟩

/-- C5 counterexample: a player-joined for guestAlice, whose roster entry
is identical and connected, is deduplicated (the roster is untouched) yet a
player-list-update broadcast is still sent, because addPlayer broadcasts
whenever the roster holds more than one player — the claim that unchanged
data sends no broadcast is false. -/
theorem addPlayer_rebroadcasts_unchanged :
    findById c5State.playersList guestAlice.id = some guestAlice ∧
    samePlayerData guestAlice guestAlice = true ∧
    (addPlayer c5State guestAlice).playersList = c5State.playersList ∧
    ¬ (addPlayer c5State guestAlice).sentLists = c5State.sentLists := by
  refine ⟨by decide, by decide, by decide, by decide⟩

/-- C5 as amended: on the host, processing player-joined deduplicates by
playerId — unchanged data (same name and role, stored entry connected)
leaves the roster untouched but still triggers a full-roster
player-list-update broadcast whenever the roster holds more than one
player (only a roster of at most one member suppresses it); a new player
id always appends the entry and broadcasts; changed data for an existing
id replaces the entry (connected forced true) and broadcasts whenever the
roster holds more than one player. -/
theorem addPlayer_spec (st : RTCServiceState) (player : PlayerInfo)
    (hhost : st.isHost = true) :
    (∀ e, findById st.playersList player.id = some e →
      samePlayerData e player = true →
      (addPlayer st player).playersList = st.playersList ∧
      (addPlayer st player).sentLists =
        (if st.playersList.length > 1 then st.sentLists ++ [st.playersList]
         else st.sentLists)) ∧
    (findById st.playersList player.id = none →
      (addPlayer st player).playersList =
        st.playersList ++ [{ player with connected := true }] ∧
      (addPlayer st player).sentLists =
        st.sentLists ++ [st.playersList ++ [{ player with connected := true }]]) ∧
    (∀ e, findById st.playersList player.id = some e →
      samePlayerData e player = false →
      (addPlayer st player).playersList = updatedRoster st player ∧
      (addPlayer st player).sentLists =
        (if (updatedRoster st player).length > 1 then
          st.sentLists ++ [updatedRoster st player]
         else st.sentLists)) := by
  refine ⟨?_, ?_, ?_⟩
  · intro e he hsame
    unfold addPlayer
    rw [he]
    by_cases hl : st.playersList.length > 1 <;>
      simp [hsame, hhost, hl]
  · intro he
    unfold addPlayer
    rw [he]
    simp [hhost]
  · intro e he hsame
    unfold addPlayer
    rw [he]
    by_cases hl : (updatedRoster st player).length > 1 <;>
      simp [hsame, hhost, hl]

/-- Witness for the amended C5: re-adding the unchanged guestAlice to the
two-member roster triggers exactly the re-broadcast of the roster. -/
theorem addPlayer_spec_witness :
    (c5State.isHost = true ∧
     findById c5State.playersList guestAlice.id = some guestAlice ∧
     samePlayerData guestAlice guestAlice = true) ∧
    (addPlayer c5State guestAlice).playersList = c5State.playersList ∧
    (addPlayer c5State guestAlice).sentLists =
      (if c5State.playersList.length > 1 then
        c5State.sentLists ++ [c5State.playersList]
       else c5State.sentLists) := by
  refine ⟨⟨rfl, by decide, by decide⟩, ?_⟩
  exact (addPlayer_spec c5State guestAlice rfl).1 guestAlice (by decide) (by decide)

/-!
Relay invariants (C7).
-/

theorem findAssoc_mem {κ α : Type} [DecidableEq κ]
    (l : List (κ × α)) (k : κ) (v : α) (h : findAssoc l k = some v) : (k, v) ∈ l := by
  induction l with
  | nil => simp [findAssoc] at h
  | cons kv rest ih =>
    by_cases hk : kv.1 = k
    · simp [findAssoc, hk] at h
      subst h
      have hkv : (k, kv.2) = kv := by rw [← hk]
      rw [hkv]
      exact List.mem_cons_self kv rest
    · simp [findAssoc, hk] at h
      exact List.mem_cons_of_mem _ (ih h)

theorem roomAdd_length (room : List Nat) (ws : Nat) :
    (roomAdd room ws).length ≤ room.length + 1 := by
  unfold roomAdd
  split
  · omega
  · simp

theorem relayStep_rooms_bound (st : RelayState) (e : RelayEvent)
    (h : ∀ en ∈ st.rooms, en.2.length ≤ 4) :
    ∀ en ∈ (relayStep st e).1.rooms, en.2.length ≤ 4 := by
  cases e with
  | create ws code =>
    intro en hen
    simp only [relayStep, relayCreateRoom] at hen
    rcases mem_setAssoc st.rooms code [ws] en hen with h1 | h1
    · exact h en h1
    · simp [h1]
  | join ws code =>
    intro en hen
    rcases optCases (findAssoc st.rooms code) with hr | ⟨room, hr⟩
    · simp only [relayStep, relayJoinRoom, hr] at hen
      exact h en hen
    · by_cases hful : room.length ≥ 4
      · simp only [relayStep, relayJoinRoom, hr, if_pos hful] at hen
        exact h en hen
      · simp only [relayStep, relayJoinRoom, hr, if_neg hful] at hen
        rcases mem_setAssoc st.rooms code (roomAdd room ws) en hen with h1 | h1
        · exact h en h1
        · have hlen := roomAdd_length room ws
          have : en.2 = roomAdd room ws := by rw [h1]
          rw [this]
          omega
  | leave ws =>
    intro en hen
    rcases optCases (findAssoc st.clients ws) with hc | ⟨info, hc⟩
    · simp only [relayStep, relayLeave, hc] at hen
      exact h en hen
    · rcases optCases (findAssoc st.rooms info.roomCode) with hr | ⟨room, hr⟩
      · simp only [relayStep, relayLeave, hc, hr] at hen
        exact h en hen
      · have hmem := h (info.roomCode, room) (findAssoc_mem st.rooms info.roomCode room hr)
        have hfil : (room.filter (fun c => ¬ c = ws)).length ≤ room.length :=
          List.length_filter_le _ room
        by_cases hz : (room.filter (fun c => ¬ c = ws)).length = 0
        · simp only [relayStep, relayLeave, hc, hr, if_pos hz] at hen
          exact h en (mem_removeAssoc st.rooms info.roomCode en hen)
        · simp only [relayStep, relayLeave, hc, hr, if_neg hz] at hen
          rcases mem_setAssoc st.rooms info.roomCode
              (room.filter (fun c => ¬ c = ws)) en hen with h1 | h1
          · exact h en h1
          · have : en.2 = room.filter (fun c => ¬ c = ws) := by rw [h1]
            rw [this]
            simp only at hmem
            omega

theorem relayRunFrom_bound (events : List RelayEvent) (st : RelayState)
    (h : ∀ en ∈ st.rooms, en.2.length ≤ 4) :
    ∀ en ∈ (events.foldl (fun s e => (relayStep s e).1) st).rooms, en.2.length ≤ 4 := by
  induction events generalizing st with
  | nil => exact h
  | cons e rest ih => exact ih (relayStep st e).1 (relayStep_rooms_bound st e h)

/-- C7: every reachable relay room holds at most four members; join-room on
an unknown code replies room-not-found to the caller only; join-room on a
full room replies room-full to the caller only and leaves the relay state
(and so the room's membership) unchanged, sending no player-joined; an
admitted join adds the caller to the room, replies room-joined with the new
member count, and notifies every other member with player-joined. -/
theorem relay_room_capacity :
    (∀ (events : List RelayEvent) (en : List Char × List Nat),
        en ∈ (relayRun events).rooms → en.2.length ≤ 4) ∧
    (∀ (st : RelayState) (ws : Nat) (code : List Char),
        findAssoc st.rooms code = none →
        relayJoinRoom st ws code =
          (st, [(ws, ServerMsg.errorReply "Room not found".toList)])) ∧
    (∀ (st : RelayState) (ws : Nat) (code : List Char) (room : List Nat),
        findAssoc st.rooms code = some room → room.length ≥ 4 →
        relayJoinRoom st ws code =
          (st, [(ws, ServerMsg.errorReply "Room is full".toList)])) ∧
    (∀ (st : RelayState) (ws : Nat) (code : List Char) (room : List Nat),
        findAssoc st.rooms code = some room → room.length < 4 →
        relayJoinRoom st ws code =
          (⟨setAssoc st.rooms code (roomAdd room ws),
            setAssoc st.clients ws ⟨code, SRole.guest⟩⟩,
           (ws, ServerMsg.roomJoined code (roomAdd room ws).length) ::
             ((roomAdd room ws).filter (fun c => ¬ c = ws)).map
               (fun c => (c, ServerMsg.playerJoined (roomAdd room ws).length)))) := by
  refine ⟨?_, ?_, ?_, ?_⟩
  · intro events en hen
    exact relayRunFrom_bound events emptyRelay (by simp [emptyRelay]) en hen
  · intro st ws code h
    simp [relayJoinRoom, h]
  · intro st ws code room h hful
    simp [relayJoinRoom, h, if_pos hful]
  · intro st ws code room h hlt
    have hful : ¬ room.length ≥ 4 := by omega
    simp [relayJoinRoom, h, if_neg hful]

/-- Witness for C7: the fifth join on a four-member room fails with the
room-full error and the relay state is untouched. -/
theorem relay_room_capacity_witness :
    (findAssoc c7FullRoom.rooms "ROOMAB".toList = some [1, 2, 3, 4] ∧
     [1, 2, 3, 4].length ≥ 4) ∧
    relayJoinRoom c7FullRoom 5 "ROOMAB".toList =
      (c7FullRoom, [(5, ServerMsg.errorReply "Room is full".toList)]) := by
  refine ⟨⟨by decide, by decide⟩, ?_⟩
  exact relay_room_capacity.2.2.1 c7FullRoom 5 "ROOMAB".toList [1, 2, 3, 4]
    (by decide) (by decide)

/-- C8: create-room registers the creator as sole member and replies
room-created with the generated code, but generateRoomCode does not always
produce six characters: its length is min 6 (number of base-36 fractional
digits of the random double), so Math.random() = 0.5 — printed "0.i" —
yields the one-character code "I", and 0 yields the empty code, violating
the stated 6-character guarantee. -/
theorem generateRoomCode_not_always_six :
    generateRoomCode [18] = "I".toList ∧
    (generateRoomCode [18]).length = 1 ∧
    generateRoomCode [] = [] ∧
    (∀ ds : List Nat, (generateRoomCode ds).length = min 6 ds.length) ∧
    (∀ (st : RelayState) (ws : Nat) (code : List Char),
        relayCreateRoom st ws code =
          (⟨setAssoc st.rooms code [ws], setAssoc st.clients ws ⟨code, SRole.host⟩⟩,
           [(ws, ServerMsg.roomCreated code)])) := by
  refine ⟨by decide, by decide, by decide, ?_, ?_⟩
  · intro ds
    simp [generateRoomCode]
  · intro st ws code
    rfl

/-!
Data-channel send operations (C9).
-/

theorem hostBroadcastLoop_eq (l : List (List Char × Option ChanState)) (m : Nat) :
    hostBroadcastLoop l m =
      Except.ok ((l.filter (fun pc => chanIsOpen pc.2)).map (fun pc => (pc.1, m))) := by
  induction l with
  | nil => rfl
  | cons pc rest ih =>
    by_cases hc : chanIsOpen pc.2 = true
    · cases hco : pc.2 with
      | none => rw [hco] at hc; simp [chanIsOpen] at hc
      | some c =>
        have hcc : c = ChanState.opened := by
          rw [hco] at hc
          simpa [chanIsOpen] using hc
        subst hcc
        simp [hostBroadcastLoop, hco, chanIsOpen, dataChannelSend, ih]
    · simp only [Bool.not_eq_true] at hc
      simp [hostBroadcastLoop, hc, ih]

/-- C9: sendGameMessage and sendToPlayer never surface a channel exception:
both always return ok, delivering exactly to the open channels — the host
broadcast skips every peer whose channel is absent or not open, the guest
send and the targeted sendToPlayer deliver nothing (beyond the logged
failure) when the target channel is absent or not open, and neither
function writes any service state. -/
theorem send_is_soft_failure (svc : SendService) (m : Nat) (pid : List Char) :
    sendGameMessage svc m =
      Except.ok
        (if svc.isHost then
          (svc.peers.filter (fun pc => chanIsOpen pc.2)).map (fun pc => (pc.1, m))
         else if chanIsOpen svc.guestChannel then [(hostId, m)] else []) ∧
    sendToPlayer svc pid m =
      Except.ok
        (if svc.isHost && chanIsOpen (peerChanOf svc pid) then [(pid, m)] else []) := by
  constructor
  · by_cases hh : svc.isHost = true
    · simp [sendGameMessage, hh, hostBroadcastLoop_eq]
    · by_cases hg : chanIsOpen svc.guestChannel = true
      · cases hgc : svc.guestChannel with
        | none => rw [hgc] at hg; simp [chanIsOpen] at hg
        | some c =>
          have hcc : c = ChanState.opened := by
            rw [hgc] at hg
            simpa [chanIsOpen] using hg
          subst hcc
          simp [sendGameMessage, hh, hgc, chanIsOpen, dataChannelSend]
      · simp [Bool.not_eq_true] at hg
        simp [sendGameMessage, hh, hg]
  · by_cases hh : svc.isHost = true
    · by_cases ho : chanIsOpen (peerChanOf svc pid) = true
      · cases hoc : peerChanOf svc pid with
        | none => rw [hoc] at ho; simp [chanIsOpen] at ho
        | some c =>
          have hcc : c = ChanState.opened := by
            rw [hoc] at ho
            simpa [chanIsOpen] using ho
          subst hcc
          simp [sendToPlayer, hh, hoc, chanIsOpen, dataChannelSend]
      · simp [Bool.not_eq_true] at ho
        simp [sendToPlayer, hh, ho]
    · simp only [Bool.not_eq_true] at hh
      simp [sendToPlayer, hh]

/-!
Message-replay effects (C6).
-/

theorem effLoop_fst {σ : Type} (h : σ → GMsg → σ) :
    ∀ (l : List GMsg) (li : Int) (st : σ), (effLoop h l li st).1 = li + l.length := by
  intro l
  induction l with
  | nil => intro li st; simp [effLoop]
  | cons m rest ih =>
    intro li st
    show (effLoop h rest (li + 1) (h st m)).1 = _
    rw [ih]
    simp only [List.length_cons]
    push_cast
    ring

theorem scanGo_lt (msgs : List GMsg) :
    ∀ (n i : Nat), scanGo msgs n = some i → i < msgs.length := by
  intro n
  induction n with
  | zero => intro i hcon; simp [scanGo] at hcon
  | succ k ih =>
    intro i hsc
    unfold scanGo at hsc
    cases hm : msgs.get? k with
    | none =>
      rw [hm] at hsc
      exact ih i hsc
    | some m =>
      rw [hm] at hsc
      have hsc2 : (if m.mtype = GMsgType.gameStart then
          (if hasGameEndAfter msgs k = true then scanGo msgs k else some k)
          else scanGo msgs k) = some i := hsc
      by_cases hg : m.mtype = GMsgType.gameStart
      · rw [if_pos hg] at hsc2
        by_cases he : hasGameEndAfter msgs k = true
        · rw [if_pos he] at hsc2
          exact ih i hsc2
        · rw [if_neg he] at hsc2
          obtain ⟨hlt, _⟩ := List.get?_eq_some.mp hm
          cases hsc2
          exact hlt
      · rw [if_neg hg] at hsc2
        exact ih i hsc2

theorem runGP_nil {σ : Type} (h : σ → GMsg → σ) (p : Int × σ) :
    runGamePlayEffect h [] p = p := by
  simp [runGamePlayEffect, effLoop]

theorem runGP_fst_ge {σ : Type} (h : σ → GMsg → σ) (msgs : List GMsg) (p : Int × σ)
    (hp : p.1 ≥ -1) (hnil : msgs ≠ []) :
    (runGamePlayEffect h msgs p).1 ≥ (msgs.length : Int) - 1 ∧
    (runGamePlayEffect h msgs p).1 ≥ 0 := by
  have hlen : msgs.length ≥ 1 := by
    cases msgs with
    | nil => exact absurd rfl hnil
    | cons a b => simp
  by_cases hg : p.1 = -1 ∧ msgs ≠ []
  · cases hscan : scanForGameStart msgs with
    | none =>
      simp only [runGamePlayEffect, if_pos hg, hscan]
      rw [effLoop_fst]
      simp only [List.length_drop]
      omega
    | some i =>
      have hi : i < msgs.length := scanGo_lt msgs msgs.length i hscan
      simp only [runGamePlayEffect, if_pos hg, hscan]
      rw [effLoop_fst]
      simp only [List.length_drop]
      have hcast : ((i : Int) - 1 + 1) = (i : Int) := by ring
      rw [hcast, Int.toNat_natCast]
      have hle : i ≤ msgs.length := le_of_lt hi
      rw [Nat.cast_sub hle]
      show (i : Int) - 1 + ((msgs.length : Int) - (i : Int)) ≥ (msgs.length : Int) - 1 ∧
        (i : Int) - 1 + ((msgs.length : Int) - (i : Int)) ≥ 0
      omega
  · have hne : ¬ p.1 = -1 := fun he => hg ⟨he, hnil⟩
    simp only [runGamePlayEffect, if_neg hg]
    rw [effLoop_fst]
    simp only [List.length_drop]
    omega

theorem gamePlay_idem {σ : Type} (h : σ → GMsg → σ) (msgs : List GMsg) (p : Int × σ)
    (hp : p.1 ≥ -1) :
    runGamePlayEffect h msgs (runGamePlayEffect h msgs p) =
      runGamePlayEffect h msgs p := by
  by_cases hnil : msgs = []
  · subst hnil
    rw [runGP_nil, runGP_nil]
  · obtain ⟨hge, hge0⟩ := runGP_fst_ge h msgs p hp hnil
    set r := runGamePlayEffect h msgs p with hr
    have hguard : ¬ (r.1 = -1 ∧ msgs ≠ []) := by
      intro hcon
      have := hcon.1
      omega
    have hdrop : msgs.drop (r.1 + 1).toNat = [] := by
      apply List.drop_eq_nil_of_le
      omega
    simp only [runGamePlayEffect, if_neg hguard, hdrop, effLoop]

theorem lobbyLoop_lastIdx_mono :
    ∀ (l : List GMsg) (st : LobbyState), st.lastIdx ≤ (lobbyLoop l st).1.lastIdx := by
  intro l
  induction l with
  | nil => intro st; simp [lobbyLoop]
  | cons m rest ih =>
    intro st
    by_cases hrs : m.mtype = GMsgType.roundStart
    · have hgs : ¬ m.mtype = GMsgType.gameStart := by rw [hrs]; simp
      by_cases hnav : st.navFlag <;> simp [lobbyLoop, hrs, hgs, hnav] <;> omega
    · by_cases hgs : m.mtype = GMsgType.gameStart
      · have h2 := ih { st with
          lastIdx := st.lastIdx + 1
          settingsTok := some m.payload
          questionsTok := some m.payload }
        simp only [lobbyLoop]
        simp [hrs, hgs]
        simp only at h2
        omega
      · have h2 := ih { st with lastIdx := st.lastIdx + 1 }
        simp only [lobbyLoop]
        simp [hrs, hgs]
        simp only at h2
        omega

theorem lobbyLoop_trace_bounds :
    ∀ (l : List GMsg) (st : LobbyState), ∀ i ∈ (lobbyLoop l st).2,
      st.lastIdx < i ∧ i ≤ (lobbyLoop l st).1.lastIdx := by
  intro l
  induction l with
  | nil => intro st; simp [lobbyLoop]
  | cons m rest ih =>
    intro st i hi
    by_cases hrs : m.mtype = GMsgType.roundStart
    · have hgs : ¬ m.mtype = GMsgType.gameStart := by rw [hrs]; simp
      by_cases hnav : st.navFlag <;>
        simp [lobbyLoop, hrs, hgs, hnav] at hi ⊢ <;>
        omega
    · by_cases hgs : m.mtype = GMsgType.gameStart
      · have hmono := lobbyLoop_lastIdx_mono rest { st with
          lastIdx := st.lastIdx + 1
          settingsTok := some m.payload
          questionsTok := some m.payload }
        simp only [lobbyLoop] at hi
        simp [hrs, hgs] at hi
        simp only [lobbyLoop]
        simp [hrs, hgs]
        simp only at hmono
        rcases hi with hi | hi
        · omega
        · have hb := ih { st with
            lastIdx := st.lastIdx + 1
            settingsTok := some m.payload
            questionsTok := some m.payload } i hi
          simp only at hb
          omega
      · have hmono := lobbyLoop_lastIdx_mono rest { st with lastIdx := st.lastIdx + 1 }
        simp only [lobbyLoop] at hi
        simp [hrs, hgs] at hi
        simp only [lobbyLoop]
        simp [hrs, hgs]
        simp only at hmono
        rcases hi with hi | hi
        · omega
        · have hb := ih { st with lastIdx := st.lastIdx + 1 } i hi
          simp only at hb
          omega

theorem runLobby_bounds (msgs : List GMsg) (st : LobbyState) (hst : st.lastIdx ≥ -1) :
    st.lastIdx ≤ (runLobbyEffect msgs st).1.lastIdx ∧
    ∀ i ∈ (runLobbyEffect msgs st).2,
      st.lastIdx < i ∧ i ≤ (runLobbyEffect msgs st).1.lastIdx := by
  have key : ∀ st1 : LobbyState, st.lastIdx ≤ st1.lastIdx →
      st.lastIdx ≤ (lobbyLoop (msgs.drop (st1.lastIdx + 1).toNat) st1).1.lastIdx ∧
      ∀ i ∈ (lobbyLoop (msgs.drop (st1.lastIdx + 1).toNat) st1).2,
        st.lastIdx < i ∧ i ≤ (lobbyLoop (msgs.drop (st1.lastIdx + 1).toNat) st1).1.lastIdx := by
    intro st1 hle
    have hmono := lobbyLoop_lastIdx_mono (msgs.drop (st1.lastIdx + 1).toNat) st1
    have hb := lobbyLoop_trace_bounds (msgs.drop (st1.lastIdx + 1).toNat) st1
    refine ⟨by omega, ?_⟩
    intro i hi
    have hbi := hb i hi
    exact ⟨by omega, hbi.2⟩
  simp only [runLobbyEffect]
  by_cases hg : st.lastIdx = -1 ∧ msgs ≠ []
  · rw [if_pos hg]
    by_cases hrc : st.roomCodeSet = true
    · rw [if_pos hrc]
      apply key
      show st.lastIdx ≤ (msgs.length : Int) - 1
      have hg1 := hg.1
      have hn : msgs.length ≥ 1 := by
        cases msgs with
        | nil => exact absurd rfl hg.2
        | cons a b => simp
      omega
    · rw [if_neg hrc]
      exact key st le_rfl
  · rw [if_neg hg]
    exact key st le_rfl

theorem lobby_no_reprocess (msgs : List GMsg) (st : LobbyState) (hst : st.lastIdx ≥ -1) :
    ∀ i ∈ (runLobbyEffect msgs (runLobbyEffect msgs st).1).2,
      ∀ j ∈ (runLobbyEffect msgs st).2, j < i := by
  intro i hi j hj
  obtain ⟨hmono, hbnd⟩ := runLobby_bounds msgs st hst
  have hj2 := hbnd j hj
  have hr1 : (runLobbyEffect msgs st).1.lastIdx ≥ -1 := by omega
  obtain ⟨hmono2, hbnd2⟩ := runLobby_bounds msgs (runLobbyEffect msgs st).1 hr1
  have hi2 := hbnd2 i hi
  omega

/-- C6 counterexample: over the log [round-start, game-start], the lobby
effect's round-start break leaves the trailing game-start unprocessed on a
fresh consumer, so a second evaluation of the same log changes the terminal
state (it then applies the game-start) — feeding the log twice is not the
same as feeding it once, falsifying the claim for the lobby consumer. -/
theorem lobby_replay_not_idempotent :
    ¬ ((runLobbyEffect c6Log (runLobbyEffect c6Log lobbyFresh).1).1 =
        (runLobbyEffect c6Log lobbyFresh).1) := by decide

/-- C6 as amended: both consumers track the highest processed index and act
only on strictly newer messages, so no message's handler ever runs twice:
the game-play effect is idempotent — re-evaluating it over the same log
reproduces the same terminal state — while the lobby effect, whose
round-start branch breaks out of the loop early, may on re-evaluation
process messages its first evaluation skipped, but every index it processes
is strictly greater than every index processed before. -/
theorem replay_consumers_process_once :
    (∀ {σ : Type} (h : σ → GMsg → σ) (msgs : List GMsg) (p : Int × σ), p.1 ≥ -1 →
        runGamePlayEffect h msgs (runGamePlayEffect h msgs p) =
          runGamePlayEffect h msgs p) ∧
    (∀ (msgs : List GMsg) (st : LobbyState), st.lastIdx ≥ -1 →
        ∀ i ∈ (runLobbyEffect msgs (runLobbyEffect msgs st).1).2,
          ∀ j ∈ (runLobbyEffect msgs st).2, j < i) :=
  ⟨fun h msgs p hp => gamePlay_idem h msgs p hp,
   fun msgs st hst => lobby_no_reprocess msgs st hst⟩

/-- Witness for the amended C6 on the log [game-start, round-start,
game-start]: re-running the game-play effect on a fresh consumer is a
no-op, and the index the lobby effect's second evaluation processes (2,
beyond its round-start break) is strictly above the indices (0 and 1) of
the first evaluation. -/
theorem replay_consumers_process_once_witness :
    (((-1 : Int), (0 : Nat)).1 ≥ -1 ∧ lobbyFresh.lastIdx ≥ -1 ∧
     (2 : Int) ∈ (runLobbyEffect c6bLog (runLobbyEffect c6bLog lobbyFresh).1).2 ∧
     (1 : Int) ∈ (runLobbyEffect c6bLog lobbyFresh).2) ∧
    runGamePlayEffect (fun (n : Nat) (_ : GMsg) => n + 1) c6bLog
        (runGamePlayEffect (fun (n : Nat) (_ : GMsg) => n + 1) c6bLog ((-1 : Int), (0 : Nat))) =
      runGamePlayEffect (fun (n : Nat) (_ : GMsg) => n + 1) c6bLog ((-1 : Int), (0 : Nat)) ∧
    (1 : Int) < 2 := by
  refine ⟨⟨by decide, by decide, by decide, by decide⟩, ?_, ?_⟩
  · exact replay_consumers_process_once.1 (fun n _ => n + 1) c6bLog ((-1 : Int), (0 : Nat))
      (by decide)
  · exact replay_consumers_process_once.2 c6bLog lobbyFresh (by decide) 2 (by decide) 1
      (by decide)

/-!
Round-record contents (C10).
-/

theorem calc_appends (s : HostState) (pid : List Char) (c : Bool) (t : Int)
    (ps : PlayerScore) (q : QuizQuestion) (st : GameSettings)
    (hps : findAssoc s.scores pid = some ps)
    (hq : s.currentQuestion = some q)
    (hst : s.settings = some st) :
    ∃ ps' rec, findAssoc (calculateScoreForPlayer s pid c t).1.scores pid = some ps' ∧
      ps'.roundScores = ps.roundScores ++ [rec] ∧
      rec.answer = s.playerAnswer := by
  cases c
  · rw [calc_incorrect_eq s pid t ps q st hps hq hst]
    exact ⟨specIncorrectScore s ps t, specIncorrectRecord s t,
      findAssoc_setAssoc_self _ _ _, rfl, rfl⟩
  · rw [calc_correct_eq s pid t ps q st hps hq hst]
    exact ⟨specCorrectScore s ps q st t, specCorrectRecord s ps q st t,
      findAssoc_setAssoc_self _ _ _, rfl, rfl⟩

theorem displayAnswer_eq_of (s s' : HostState) (now : Int) (p : PlayerInfo)
    (h1 : s'.playerAnswer = s.playerAnswer)
    (h2 : s'.answerSubmittedAt = s.answerSubmittedAt)
    (h3 : s'.pendingAnswers = s.pendingAnswers) :
    displayAnswer s' now p = displayAnswer s now p := by
  unfold displayAnswer playerRawAnswer
  rw [h1, h2, h3]

theorem processPlayers_spec (now : Int) (q : QuizQuestion) :
    ∀ (l : List PlayerInfo) (s : HostState),
      s.currentQuestion = some q →
      (∃ st, s.settings = some st) →
      (l.map PlayerInfo.id).Nodup →
      (∀ p ∈ l, ∃ ps, findAssoc s.scores p.id = some ps) →
      ((processPlayers s now q l).2.map (fun r => (r.playerId, r.answer)) =
        l.map (fun p => (p.id, displayAnswer s now p))) ∧
      (∀ pid, pid ∉ l.map PlayerInfo.id →
        findAssoc (processPlayers s now q l).1.scores pid = findAssoc s.scores pid) ∧
      (∀ p ∈ l, ∃ ps ps' rec,
        findAssoc s.scores p.id = some ps ∧
        findAssoc (processPlayers s now q l).1.scores p.id = some ps' ∧
        ps'.roundScores = ps.roundScores ++ [rec] ∧
        rec.answer = s.playerAnswer) := by
  intro l
  induction l with
  | nil =>
    intro s _ _ _ _
    exact ⟨rfl, fun pid _ => rfl, fun p hp => absurd hp (List.not_mem_nil p)⟩
  | cons p rest ih =>
    intro s hq hset hnodup hscores
    obtain ⟨st, hst⟩ := hset
    obtain ⟨ps, hpsv⟩ := hscores p (List.mem_cons_self p rest)
    simp only [List.map_cons] at hnodup
    obtain ⟨hpnotmem, hnodup2⟩ := List.nodup_cons.mp hnodup
    obtain ⟨sc1, hsc1⟩ := scoreOne_shape s now q p
    have hcalc : (scoreOnePlayer s now q p).1 =
        (calculateScoreForPlayer s p.id
          (validateAnswer s.settings (playerRawAnswer s now p).1 q.correctAnswer)
          (playerRawAnswer s now p).2).1 := rfl
    obtain ⟨ps', rec, ha1, ha2, ha3⟩ := calc_appends s p.id
      (validateAnswer s.settings (playerRawAnswer s now p).1 q.correctAnswer)
      (playerRawAnswer s now p).2 ps q st hpsv hq hst
    have hq1 : (scoreOnePlayer s now q p).1.currentQuestion = some q := by
      rw [hsc1]; exact hq
    have hset1 : ∃ st0, (scoreOnePlayer s now q p).1.settings = some st0 :=
      ⟨st, by rw [hsc1]; exact hst⟩
    have hothers : ∀ pid, pid ≠ p.id →
        findAssoc (scoreOnePlayer s now q p).1.scores pid = findAssoc s.scores pid := by
      intro pid hne
      rw [hcalc]
      exact calc_scores_other s p.id _ _ pid hne
    have hscores1 : ∀ p' ∈ rest,
        ∃ ps0, findAssoc (scoreOnePlayer s now q p).1.scores p'.id = some ps0 := by
      intro p' hp'
      obtain ⟨ps0, hps0⟩ := hscores p' (List.mem_cons_of_mem p hp')
      have hne : p'.id ≠ p.id := by
        intro he
        exact hpnotmem (he ▸ List.mem_map_of_mem PlayerInfo.id hp')
      exact ⟨ps0, by rw [hothers p'.id hne]; exact hps0⟩
    obtain ⟨ihres, ihother, ihapp⟩ :=
      ih (scoreOnePlayer s now q p).1 hq1 hset1 hnodup2 hscores1
    have hpa1 : (scoreOnePlayer s now q p).1.playerAnswer = s.playerAnswer := by
      rw [hsc1]
    have hda : ∀ p', displayAnswer (scoreOnePlayer s now q p).1 now p' =
        displayAnswer s now p' := by
      intro p'
      apply displayAnswer_eq_of <;> rw [hsc1]
    refine ⟨?_, ?_, ?_⟩
    · simp only [processPlayers, List.map_cons]
      have hhead : ((scoreOnePlayer s now q p).2.playerId,
          (scoreOnePlayer s now q p).2.answer) = (p.id, displayAnswer s now p) := rfl
      have hfun : (fun p' : PlayerInfo =>
            (p'.id, displayAnswer (scoreOnePlayer s now q p).1 now p')) =
          (fun p' : PlayerInfo => (p'.id, displayAnswer s now p')) := by
        funext p'
        rw [hda p']
      rw [hhead, ihres, hfun]
    · intro pid hpid
      simp only [List.map_cons, List.mem_cons] at hpid
      have hne : ¬ pid = p.id := fun hh => hpid (Or.inl hh)
      have hnot : pid ∉ rest.map PlayerInfo.id := fun hh => hpid (Or.inr hh)
      simp only [processPlayers]
      rw [ihother pid hnot]
      exact hothers pid hne
    · intro p' hp'
      rcases List.mem_cons.mp hp' with heq | hp2
      · subst heq
        refine ⟨ps, ps', rec, hpsv, ?_, ha2, ha3⟩
        simp only [processPlayers]
        rw [ihother p'.id hpnotmem, hcalc]
        exact ha1
      · obtain ⟨ps0, ps0', rec0, hb1, hb2, hb3, hb4⟩ := ihapp p' hp2
        have hne : p'.id ≠ p.id := by
          intro he
          exact hpnotmem (he ▸ List.mem_map_of_mem PlayerInfo.id hp2)
        refine ⟨ps0, ps0', rec0, ?_, ?_, hb3, ?_⟩
        · rw [← hothers p'.id hne]
          exact hb1
        · simp only [processPlayers]
          exact hb2
        · rw [← hpa1]
          exact hb4

theorem processAllAnswers_parts (s : HostState) (now : Int) (q : QuizQuestion)
    (hq : s.currentQuestion = some q) :
    ∃ run : HostState × List RoundResult,
      run = processPlayers
        { s with
          currentQuestion := some q
          answersProcessedForRound := (s.currentRound : Int) } now q s.players ∧
      (processAllAnswers s now).scores = run.1.scores ∧
      (processAllAnswers s now).sent =
        run.1.sent ++
          [HostMsg.roundEnd s.currentRound q.correctAnswer run.2,
           HostMsg.scoreUpdate (scoreSnapshot run.1.scores)] := by
  unfold processAllAnswers
  rw [hq]
  exact ⟨_, rfl, rfl, rfl⟩

/-- C10: when the host resolves a round, the RoundScore record appended to
each player's roundScores stores in its answer field the host's own typed
answer (the playerAnswer signal) for every player — calculateScoreForPlayer
never reads the player's submission for this field — while each player's
actually submitted answer (or "(no answer)" when empty) appears in the
round-end results broadcast, keyed by player id. -/
theorem processAllAnswers_records_host_answer (s : HostState) (now : Int)
    (q : QuizQuestion) (st : GameSettings)
    (hq : s.currentQuestion = some q) (hst : s.settings = some st)
    (hnodup : (s.players.map PlayerInfo.id).Nodup)
    (hscores : ∀ p ∈ s.players, ∃ ps, findAssoc s.scores p.id = some ps) :
    (∀ p ∈ s.players, ∃ ps ps' rec,
        findAssoc s.scores p.id = some ps ∧
        findAssoc (processAllAnswers s now).scores p.id = some ps' ∧
        ps'.roundScores = ps.roundScores ++ [rec] ∧
        rec.answer = s.playerAnswer) ∧
    (∃ results snap,
        (processAllAnswers s now).sent = s.sent ++
          [HostMsg.roundEnd s.currentRound q.correctAnswer results,
           HostMsg.scoreUpdate snap] ∧
        results.map (fun r => (r.playerId, r.answer)) =
          s.players.map (fun p => (p.id, displayAnswer s now p))) := by
  obtain ⟨run, hrun, hscoresEq, hsentEq⟩ := processAllAnswers_parts s now q hq
  have hq1 : ({ s with
      currentQuestion := some q
      answersProcessedForRound := (s.currentRound : Int) } : HostState).currentQuestion =
      some q := rfl
  have hset1 : ∃ st0, ({ s with
      currentQuestion := some q
      answersProcessedForRound := (s.currentRound : Int) } : HostState).settings =
      some st0 := ⟨st, hst⟩
  have hscores1 : ∀ p ∈ s.players, ∃ ps, findAssoc ({ s with
      currentQuestion := some q
      answersProcessedForRound := (s.currentRound : Int) } : HostState).scores p.id =
      some ps := hscores
  obtain ⟨ihres, ihother, ihapp⟩ :=
    processPlayers_spec now q s.players
      { s with
        currentQuestion := some q
        answersProcessedForRound := (s.currentRound : Int) } hq1 hset1 hnodup hscores1
  obtain ⟨scAll, hshape⟩ := processPlayers_shape s.players
    { s with
      currentQuestion := some q
      answersProcessedForRound := (s.currentRound : Int) } now q
  constructor
  · intro p hp
    obtain ⟨ps0, ps0', rec0, hb1, hb2, hb3, hb4⟩ := ihapp p hp
    refine ⟨ps0, ps0', rec0, hb1, ?_, hb3, hb4⟩
    rw [hscoresEq, hrun]
    exact hb2
  · refine ⟨run.2, scoreSnapshot run.1.scores, ?_, ?_⟩
    · rw [hsentEq]
      have hsent1 : run.1.sent = s.sent := by
        rw [hrun, hshape]
      rw [hsent1]
    · have hres : run.2.map (fun r => (r.playerId, r.answer)) =
          s.players.map (fun p => (p.id, displayAnswer ({ s with
            currentQuestion := some q
            answersProcessedForRound := (s.currentRound : Int) } : HostState) now p)) := by
        rw [hrun]
        exact ihres
      rw [hres]
      have hfun : (fun p : PlayerInfo => (p.id, displayAnswer ({ s with
            currentQuestion := some q
            answersProcessedForRound := (s.currentRound : Int) } : HostState) now p)) =
          (fun p : PlayerInfo => (p.id, displayAnswer s now p)) := by
        funext p
        have hd := displayAnswer_eq_of s
          { s with
            currentQuestion := some q
            answersProcessedForRound := (s.currentRound : Int) } now p rfl rfl rfl
        rw [hd]
      rw [hfun]

/-- Witness for C10 at the concrete two-player state: the host typed
"Beatles", the guest submitted "Rolling Stones", and after resolution both
persisted round records carry "Beatles" while the broadcast carries each
player's own submission. -/
theorem processAllAnswers_records_host_answer_witness :
    (c10State.currentQuestion = some c2Question ∧
     c10State.settings = some fuzzySettings ∧
     (c10State.players.map PlayerInfo.id).Nodup ∧
     (∀ p ∈ c10State.players, ∃ ps, findAssoc c10State.scores p.id = some ps)) ∧
    ((∀ p ∈ c10State.players, ∃ ps ps' rec,
        findAssoc c10State.scores p.id = some ps ∧
        findAssoc (processAllAnswers c10State 20).scores p.id = some ps' ∧
        ps'.roundScores = ps.roundScores ++ [rec] ∧
        rec.answer = c10State.playerAnswer) ∧
     (∃ results snap,
        (processAllAnswers c10State 20).sent = c10State.sent ++
          [HostMsg.roundEnd c10State.currentRound c2Question.correctAnswer results,
           HostMsg.scoreUpdate snap] ∧
        results.map (fun r => (r.playerId, r.answer)) =
          c10State.players.map (fun p => (p.id, displayAnswer c10State 20 p)))) := by
  have hsc : ∀ p ∈ c10State.players, ∃ ps, findAssoc c10State.scores p.id = some ps := by
    intro p hp
    rcases List.mem_cons.mp hp with h | hp2
    · exact ⟨c2Score, by rw [h]; decide⟩
    · rcases List.mem_cons.mp hp2 with h | hp3
      · exact ⟨emptyScore, by rw [h]; decide⟩
      · exact absurd hp3 (List.not_mem_nil p)
  refine ⟨⟨rfl, rfl, by decide, hsc⟩, ?_⟩
  exact processAllAnswers_records_host_answer c10State 20 c2Question fuzzySettings
    rfl rfl (by decide) hsc

end Cabu
